import Mathlib

/-!
Shallow embedding of the token-bucket rate limiter in `rate_limiter.py`.

Python `Decimal` values are modelled as rationals (`ℚ`); `Decimal.quantize`
with `ROUND_DOWN` (round toward zero) at six decimal places is `quantize6`.
Wall-clock timestamps are passed explicitly as rationals.  Python exceptions
become an `Except PyError` result; `ValueError` and `RateLimiterError` are the
two exception types the module raises.
-/

/-- The two exception types raised by the module: `ValueError` and
`RateLimiterError`. -/
inductive PyError where
  | valueError (msg : String)
  | rateLimiterError (msg : String)
  deriving DecidableEq, Repr

/-- Round a rational toward zero, as Python `Decimal` rounding `ROUND_DOWN`
does. -/
def truncQ (x : ℚ) : ℤ := if 0 ≤ x then ⌊x⌋ else ⌈x⌉

/-- `x.quantize(Decimal(0.000001), rounding=ROUND_DOWN)`: keep six decimal
places, rounding toward zero. -/
def quantize6 (x : ℚ) : ℚ := (truncQ (x * 1000000) : ℚ) / 1000000

/-- State of `TokenBucket`: `rate`, `capacity`, `tokens`, `last_update`, all
held as `Decimal` in the source. -/
structure TokenBucket where
  rate : ℚ
  capacity : ℚ
  tokens : ℚ
  last_update : ℚ
  deriving DecidableEq, Repr

/-- `TokenBucket.__init__(rate, capacity)` at wall-clock time `now`:
validates `rate` and `capacity`, then starts the bucket full. -/
def TokenBucket.init (rate : ℚ) (capacity : ℤ) (now : ℚ) :
    Except PyError TokenBucket :=
  if rate ≤ 0 then .error (.valueError "Rate must be positive")
  else if capacity ≤ 0 then .error (.valueError "Capacity must be positive")
  else if (capacity : ℚ) < rate then
    .error (.valueError "Capacity must be greater than or equal to rate")
  else .ok { rate := rate, capacity := (capacity : ℚ),
             tokens := (capacity : ℚ), last_update := now }

/-- `TokenBucket._add_tokens` at wall-clock time `now`: refill proportionally
to elapsed time, quantized down, capped at capacity; always reset
`last_update`. -/
def TokenBucket.add_tokens (b : TokenBucket) (now : ℚ) : TokenBucket :=
  let elapsed := now - b.last_update
  let new_tokens := quantize6 (elapsed * b.rate)
  { b with tokens := min b.capacity (b.tokens + new_tokens),
           last_update := now }

/-- `TokenBucket.consume(tokens)` at wall-clock time `now`.  Raises
`ValueError` on a non-positive request; otherwise refills, then either
consumes (returning `true`) or leaves the refilled balance (returning
`false`). -/
def TokenBucket.consume (b : TokenBucket) (tokens : ℤ) (now : ℚ) :
    Except PyError (Bool × TokenBucket) :=
  if tokens ≤ 0 then .error (.valueError "Token count must be positive")
  else
    let b1 := b.add_tokens now
    if (tokens : ℚ) > b1.tokens then .ok (false, b1)
    else .ok (true, { b1 with tokens := quantize6 (b1.tokens - (tokens : ℚ)) })

/-- `RateLimitConfig` dataclass fields. -/
structure RateLimitConfig where
  requests_per_second : ℚ
  burst_size : ℤ
  name : String
  deriving DecidableEq, Repr

/-- `RateLimitConfig.__post_init__` validation, wrapped around construction:
the dataclass raises `ValueError` exactly when one of the four checks fires,
otherwise the fields hold the given values. -/
def RateLimitConfig.init (rps : ℚ) (burst : ℤ) (name : String) :
    Except PyError RateLimitConfig :=
  if rps ≤ 0 then .error (.valueError "requests_per_second must be positive")
  else if burst ≤ 0 then .error (.valueError "burst_size must be positive")
  else if name = "" then .error (.valueError "name cannot be empty")
  else if (burst : ℚ) < rps then
    .error (.valueError
      "burst_size must be greater than or equal to requests_per_second")
  else .ok { requests_per_second := rps, burst_size := burst, name := name }

/-- `RateLimiter` registry state: the `_buckets` dict, as an association list
with unique keys (dict insertion appends a fresh key at the end). -/
structure RateLimiter where
  buckets : List (String × TokenBucket)
  deriving DecidableEq, Repr

/-- `RateLimiter.__init__`: empty registry. -/
def RateLimiter.initRegistry : RateLimiter := { buckets := [] }

/-- Replace the bucket stored under `name` (models in-place mutation of the
dict entry after a `consume` call). -/
def RateLimiter.setBucket (r : RateLimiter) (name : String) (b : TokenBucket) :
    RateLimiter :=
  { buckets := r.buckets.map (fun p => if p.1 = name then (name, b) else p) }

/-- `RateLimiter.add_limiter(name, config)` at time `now`: reject duplicates,
otherwise build a `TokenBucket` from the config and insert it. -/
def RateLimiter.add_limiter (r : RateLimiter) (name : String)
    (config : RateLimitConfig) (now : ℚ) : Except PyError RateLimiter :=
  match r.buckets.lookup name with
  | some _ =>
    .error (.rateLimiterError ("Rate limiter " ++ name ++ " already exists"))
  | none =>
    match TokenBucket.init config.requests_per_second config.burst_size now with
    | .error e => .error e
    | .ok b => .ok { buckets := r.buckets ++ [(name, b)] }

/-- `RateLimiter.remove_limiter(name)`: delete the entry or raise. -/
def RateLimiter.remove_limiter (r : RateLimiter) (name : String) :
    Except PyError RateLimiter :=
  match r.buckets.lookup name with
  | some _ => .ok { buckets := r.buckets.filter (fun p => p.1 != name) }
  | none =>
    .error (.rateLimiterError ("Rate limiter " ++ name ++ " does not exist"))

/-- `RateLimiter.acquire(name, tokens)` at time `now`: validate the token
count first, then look the bucket up and delegate to its `consume`. -/
def RateLimiter.acquire (r : RateLimiter) (name : String) (tokens : ℤ)
    (now : ℚ) : Except PyError (Bool × RateLimiter) :=
  if tokens ≤ 0 then .error (.valueError "Tokens must be positive")
  else
    match r.buckets.lookup name with
    | none =>
      .error (.rateLimiterError ("Rate limiter " ++ name ++ " does not exist"))
    | some b =>
      match b.consume tokens now with
      | .error e => .error e
      | .ok (res, b1) => .ok (res, r.setBucket name b1)

/-- Run a sequence of `consume` calls, each given as a requested token count
and the wall-clock time of the call, and collect the bucket state observable
after each call (an exception leaves the state unchanged). -/
def TokenBucket.runTrace (b : TokenBucket) :
    List (ℤ × ℚ) → List TokenBucket
  | [] => []
  | (n, t) :: rest =>
    match b.consume n t with
    | .ok (_, b1) => b1 :: b1.runTrace rest
    | .error _ => b :: b.runTrace rest

/-- The wall-clock times of a call trace never decrease, starting from `t`
(non-negative elapsed time between successive calls). -/
def TimesMono (t : ℚ) : List (ℤ × ℚ) → Prop
  | [] => True
  | (_, t1) :: rest => t ≤ t1 ∧ TimesMono t1 rest

/-- Run `n` successive `consume(1)` calls at the fixed wall-clock time `now`,
collecting the returned booleans. -/
def TokenBucket.consumeRun (b : TokenBucket) (now : ℚ) : ℕ → List Bool
  | 0 => []
  | n + 1 =>
    match b.consume 1 now with
    | .ok (res, b1) => res :: b1.consumeRun now n
    | .error _ => []

/-- The boolean outcome of a `consume` call, `none` when the call raises. -/
def TokenBucket.consumeResult (b : TokenBucket) (tokens : ℤ) (now : ℚ) :
    Option Bool :=
  match b.consume tokens now with
  | .ok (res, _) => some res
  | .error _ => none

/-- The mutual-exclusion locks appearing in the module: the registry-wide
`RateLimiter._lock` and one `TokenBucket._lock` per registered bucket
(buckets are keyed by their registry name). -/
inductive LockId where
  | registry
  | bucket (name : String)
  deriving DecidableEq, Repr

/-- Locks held while `TokenBucket.consume` runs on the bucket registered
under `name`: only that bucket's own lock (`with self._lock`). -/
def consumeLocks (name : String) : List LockId := [.bucket name]

/-- Locks held while `RateLimiter.acquire(name, ...)` runs: the registry-wide
lock is taken first (`with self._lock`) and is still held when the bucket's
`consume` takes the bucket lock inside it. -/
def acquireLocks (name : String) : List LockId :=
  .registry :: consumeLocks name

/-- Locks held while `add_limiter` / `remove_limiter` run: the registry-wide
lock. -/
def registryMutationLocks : List LockId := [.registry]

/-- `x` is an integer multiple of `10 ^ (-6)`, i.e. a value expressible
exactly at the six-decimal-place quantum used by `quantize6`. -/
def Micro (x : ℚ) : Prop := ∃ k : ℤ, x = (k : ℚ) / 1000000

/-- The state invariant a `TokenBucket` keeps between calls: a positive
rate, a positive capacity that is a whole number of micro-tokens, and a
balance between `0` and `capacity` expressible at the quantization step. -/
def BucketInv (b : TokenBucket) : Prop :=
  0 < b.rate ∧ 0 < b.capacity ∧ Micro b.capacity ∧
    0 ≤ b.tokens ∧ b.tokens ≤ b.capacity ∧ Micro b.tokens

theorem truncQ_of_nonneg {x : ℚ} (h : 0 ≤ x) : truncQ x = ⌊x⌋ := by
  simp [truncQ, h]

theorem quantize6_nonneg {x : ℚ} (h : 0 ≤ x) : 0 ≤ quantize6 x := by
  unfold quantize6
  rw [truncQ_of_nonneg (by positivity)]
  have h1 : (0 : ℤ) ≤ ⌊x * 1000000⌋ := Int.floor_nonneg.mpr (by positivity)
  have h2 : (0 : ℚ) ≤ (⌊x * 1000000⌋ : ℚ) := by exact_mod_cast h1
  positivity

theorem quantize6_le {x : ℚ} (h : 0 ≤ x) : quantize6 x ≤ x := by
  unfold quantize6
  rw [truncQ_of_nonneg (by positivity),
    div_le_iff₀ (by norm_num : (0 : ℚ) < 1000000)]
  exact Int.floor_le _

theorem one_le_quantize6_iff {x : ℚ} (h : 0 ≤ x) :
    1 ≤ quantize6 x ↔ 1 ≤ x := by
  unfold quantize6
  rw [truncQ_of_nonneg (by positivity),
    le_div_iff₀ (by norm_num : (0 : ℚ) < 1000000), one_mul]
  have key : (1000000 : ℚ) ≤ (⌊x * 1000000⌋ : ℚ) ↔
      (1000000 : ℚ) ≤ x * 1000000 := by
    constructor
    · intro h1; exact le_trans h1 (Int.floor_le _)
    · intro h1
      have h2 := Int.le_floor.mpr
        (by exact_mod_cast h1 : ((1000000 : ℤ) : ℚ) ≤ x * 1000000)
      exact_mod_cast h2
  rw [key]
  constructor <;> intro h1 <;> nlinarith

theorem micro_quantize6 (x : ℚ) : Micro (quantize6 x) :=
  ⟨truncQ (x * 1000000), rfl⟩

theorem micro_intCast (k : ℤ) : Micro ((k : ℚ)) :=
  ⟨k * 1000000, by push_cast [mul_div_assoc]; norm_num⟩

theorem micro_add {x y : ℚ} (hx : Micro x) (hy : Micro y) : Micro (x + y) := by
  obtain ⟨k, rfl⟩ := hx
  obtain ⟨l, rfl⟩ := hy
  exact ⟨k + l, by push_cast; ring⟩

theorem micro_min {x y : ℚ} (hx : Micro x) (hy : Micro y) :
    Micro (min x y) := by
  rcases le_total x y with h | h
  · rwa [min_eq_left h]
  · rwa [min_eq_right h]

theorem quantize6_micro_eq {x : ℚ} (hx : Micro x) : quantize6 x = x := by
  obtain ⟨k, rfl⟩ := hx
  unfold quantize6
  have h6 : (k : ℚ) / 1000000 * 1000000 = (k : ℚ) := by field_simp
  rw [h6]
  have htr : truncQ ((k : ℚ)) = k := by
    by_cases hk : (0 : ℚ) ≤ (k : ℚ)
    · simp [truncQ, hk]
    · simp [truncQ, hk]
  rw [htr]

theorem quantize6_zero : quantize6 0 = 0 :=
  quantize6_micro_eq ⟨0, by norm_num⟩

theorem init_ok {rate : ℚ} {cap : ℤ} {t0 : ℚ} {b : TokenBucket}
    (h : TokenBucket.init rate cap t0 = .ok b) :
    0 < rate ∧ 0 < cap ∧ rate ≤ (cap : ℚ) ∧
      b = ⟨rate, (cap : ℚ), (cap : ℚ), t0⟩ := by
  unfold TokenBucket.init at h
  by_cases h1 : rate ≤ 0
  · rw [if_pos h1] at h; simp at h
  rw [if_neg h1] at h
  by_cases h2 : cap ≤ 0
  · rw [if_pos h2] at h; simp at h
  rw [if_neg h2] at h
  by_cases h3 : (cap : ℚ) < rate
  · rw [if_pos h3] at h; simp at h
  rw [if_neg h3] at h
  simp only [Except.ok.injEq] at h
  exact ⟨not_le.mp h1, not_le.mp h2, not_lt.mp h3, h.symm⟩

theorem init_inv {rate : ℚ} {cap : ℤ} {t0 : ℚ} {b : TokenBucket}
    (h : TokenBucket.init rate cap t0 = .ok b) :
    BucketInv b ∧ b.last_update = t0 ∧ b.tokens = b.capacity := by
  obtain ⟨hr, hc, _, rfl⟩ := init_ok h
  have hcq : (0 : ℚ) < (cap : ℚ) := by exact_mod_cast hc
  exact ⟨⟨hr, hcq, micro_intCast cap, hcq.le, le_refl _, micro_intCast cap⟩,
    rfl, rfl⟩

theorem add_tokens_inv {b : TokenBucket} {t : ℚ}
    (hinv : BucketInv b) (ht : b.last_update ≤ t) :
    BucketInv (b.add_tokens t) ∧ (b.add_tokens t).last_update = t ∧
      (b.add_tokens t).rate = b.rate ∧
      (b.add_tokens t).capacity = b.capacity ∧
      b.tokens ≤ (b.add_tokens t).tokens := by
  obtain ⟨hr, hc, hmc, ht0, htc, hmt⟩ := hinv
  have hq0 : 0 ≤ quantize6 ((t - b.last_update) * b.rate) :=
    quantize6_nonneg (mul_nonneg (by linarith) hr.le)
  constructor
  · refine ⟨hr, hc, hmc, ?_, ?_, ?_⟩
    · exact le_min hc.le (by linarith)
    · exact min_le_left _ _
    · exact micro_min hmc (micro_add hmt (micro_quantize6 _))
  · refine ⟨rfl, rfl, rfl, ?_⟩
    exact le_min htc (by linarith)

theorem consume_preserves {b : TokenBucket} {n : ℤ} {t : ℚ}
    {res : Bool} {b1 : TokenBucket}
    (hinv : BucketInv b) (ht : b.last_update ≤ t)
    (h : b.consume n t = .ok (res, b1)) :
    BucketInv b1 ∧ b1.last_update = t ∧
      b1.rate = b.rate ∧ b1.capacity = b.capacity := by
  unfold TokenBucket.consume at h
  by_cases hn : n ≤ 0
  · rw [if_pos hn] at h; simp at h
  rw [if_neg hn] at h
  simp only at h
  obtain ⟨hinv2, hlu2, hr2, hc2, _⟩ := add_tokens_inv hinv ht
  obtain ⟨har, hac, hamc, hat0, hatc, hamt⟩ := id hinv2
  by_cases hgt : (n : ℚ) > (b.add_tokens t).tokens
  · rw [if_pos hgt] at h
    simp only [Except.ok.injEq, Prod.mk.injEq] at h
    obtain ⟨-, rfl⟩ := h
    exact ⟨hinv2, hlu2, hr2, hc2⟩
  · rw [if_neg hgt] at h
    simp only [Except.ok.injEq, Prod.mk.injEq] at h
    obtain ⟨-, rfl⟩ := h
    push_neg at hgt
    have hd0 : (0 : ℚ) ≤ (b.add_tokens t).tokens - (n : ℚ) := by linarith
    refine ⟨⟨har, hac, hamc, quantize6_nonneg hd0, ?_, micro_quantize6 _⟩,
      hlu2, hr2, hc2⟩
    calc quantize6 ((b.add_tokens t).tokens - (n : ℚ)) ≤
        (b.add_tokens t).tokens - (n : ℚ) := quantize6_le hd0
      _ ≤ (b.add_tokens t).tokens := by
          have : (0 : ℚ) < (n : ℚ) := by exact_mod_cast not_le.mp hn
          linarith
      _ ≤ (b.add_tokens t).capacity := hatc

theorem add_tokens_def (b : TokenBucket) (t : ℚ) :
    b.add_tokens t = { b with
      tokens := min b.capacity
        (b.tokens + quantize6 ((t - b.last_update) * b.rate)),
      last_update := t } := rfl

theorem runTrace_inv : ∀ (trace : List (ℤ × ℚ)) (b : TokenBucket) (t : ℚ),
    BucketInv b → b.last_update ≤ t → TimesMono t trace →
    ∀ s ∈ b.runTrace trace, BucketInv s := by
  intro trace
  induction trace with
  | nil =>
    intro b t _ _ _ s hs
    simp [TokenBucket.runTrace] at hs
  | cons p rest ih =>
    obtain ⟨n, t1⟩ := p
    intro b t hinv hle hmono s hs
    obtain ⟨htt1, hmono1⟩ : t ≤ t1 ∧ TimesMono t1 rest := hmono
    have hle1 : b.last_update ≤ t1 := le_trans hle htt1
    cases hcons : b.consume n t1 with
    | ok pr =>
      obtain ⟨res, b1⟩ := pr
      simp only [TokenBucket.runTrace, hcons] at hs
      obtain ⟨hinv1, hlu1, -, -⟩ := consume_preserves hinv hle1 hcons
      rcases List.mem_cons.mp hs with rfl | hs1
      · exact hinv1
      · exact ih b1 t1 hinv1 (le_of_eq hlu1) hmono1 s hs1
    | error e =>
      simp only [TokenBucket.runTrace, hcons] at hs
      rcases List.mem_cons.mp hs with rfl | hs1
      · exact hinv
      · exact ih b t1 hinv hle1 hmono1 s hs1

/-- C1: for every `TokenBucket` built from a valid configuration and every
finite sequence of `consume` calls whose wall-clock times never decrease
(non-negative elapsed time between calls), the balance satisfies
`0 ≤ tokens ≤ capacity` after construction and after every call, whatever
token counts are requested and whatever results are returned. -/
theorem tokenBucket_capacity_bound (rate : ℚ) (cap : ℤ) (t0 : ℚ)
    (b : TokenBucket) (trace : List (ℤ × ℚ))
    (hmk : TokenBucket.init rate cap t0 = .ok b)
    (hmono : TimesMono t0 trace) :
    (0 ≤ b.tokens ∧ b.tokens ≤ b.capacity) ∧
      ∀ s ∈ b.runTrace trace, 0 ≤ s.tokens ∧ s.tokens ≤ s.capacity := by
  obtain ⟨hinv, hlu, -⟩ := init_inv hmk
  refine ⟨⟨hinv.2.2.2.1, hinv.2.2.2.2.1⟩, ?_⟩
  intro s hs
  have hs1 := runTrace_inv trace b t0 hinv (le_of_eq hlu) hmono s hs
  exact ⟨hs1.2.2.2.1, hs1.2.2.2.2.1⟩

unseal Rat.mul Rat.add Rat.sub Rat.inv in
/-- Witness for C1 at a concrete bucket (`rate = 2`, `capacity = 5`,
constructed at time 0) and the one-call trace `consume(1)` at time 0. -/
theorem tokenBucket_capacity_bound_witness :
    (0 : ℚ) ≤ (⟨2, 5, 4, 0⟩ : TokenBucket).tokens ∧
      (⟨2, 5, 4, 0⟩ : TokenBucket).tokens ≤
        (⟨2, 5, 4, 0⟩ : TokenBucket).capacity :=
  (tokenBucket_capacity_bound 2 5 0 ⟨2, 5, 5, 0⟩ [(1, 0)] (by rfl)
    (by norm_num [TimesMono])).2 ⟨2, 5, 4, 0⟩ (by decide)

/-- C2 as stated is false: `RateLimiter.acquire` takes the registry-wide
lock (line 178) and still holds it while the bucket's `consume` runs, so two
concurrent `acquire` calls on different bucket names both need
`LockId.registry`; the lock sets of `acquire "a"` and `acquire "b"` are not
disjoint, hence one in-flight acquire can block the other. -/
theorem acquire_locks_counterexample :
    ¬ (∀ n1 n2 : String, n1 ≠ n2 →
        ∀ l, l ∈ acquireLocks n1 → l ∉ acquireLocks n2) := by
  intro h
  exact h "a" "b" (by decide) LockId.registry
    (by simp [acquireLocks, consumeLocks])
    (by simp [acquireLocks, consumeLocks])

/-- C2 amended: each bucket is guarded by its own lock, distinct bucket
names never share a bucket lock, and the bucket locks are distinct from the
registry-wide lock that `add_limiter`/`remove_limiter` take; however
`acquire` holds the registry-wide lock for its whole duration (including the
delegated `consume`), so acquires on two different names still share the
registry lock and can block each other. -/
theorem acquire_locks_amended (n1 n2 : String) (h : n1 ≠ n2) :
    (∀ l, l ∈ consumeLocks n1 → l ∉ consumeLocks n2) ∧
      LockId.registry ∉ consumeLocks n1 ∧
      LockId.registry ∈ registryMutationLocks ∧
      LockId.registry ∈ acquireLocks n1 ∧
      LockId.registry ∈ acquireLocks n2 := by
  refine ⟨?_, ?_, ?_, ?_, ?_⟩
  · intro l hl
    simp only [consumeLocks, List.mem_singleton] at hl ⊢
    subst hl
    intro heq
    exact h (LockId.bucket.inj heq)
  · simp [consumeLocks]
  · simp [registryMutationLocks]
  · simp [acquireLocks, consumeLocks]
  · simp [acquireLocks, consumeLocks]

/-- Witness for the amended C2 at the concrete names `"a"` and `"b"`. -/
theorem acquire_locks_amended_witness :
    LockId.registry ∈ acquireLocks "a" ∧ LockId.registry ∈ acquireLocks "b" :=
  ⟨(acquire_locks_amended "a" "b" (by decide)).2.2.2.1,
    (acquire_locks_amended "a" "b" (by decide)).2.2.2.2⟩

/-- C6: constructing a `RateLimitConfig` raises the validation `ValueError`
iff `requests_per_second ≤ 0`, `burst_size ≤ 0`, the name is empty, or
`burst_size < requests_per_second`; in every other case construction
succeeds and the config holds the given values unchanged. -/
theorem rateLimitConfig_validation (rps : ℚ) (burst : ℤ) (name : String) :
    ((∃ msg, RateLimitConfig.init rps burst name = .error (.valueError msg)) ↔
      (rps ≤ 0 ∨ burst ≤ 0 ∨ name = "" ∨ (burst : ℚ) < rps)) ∧
    (¬ (rps ≤ 0 ∨ burst ≤ 0 ∨ name = "" ∨ (burst : ℚ) < rps) →
      RateLimitConfig.init rps burst name = .ok ⟨rps, burst, name⟩) := by
  unfold RateLimitConfig.init
  constructor
  · constructor
    · intro hmsg
      by_contra hno
      push_neg at hno
      obtain ⟨g1, g2, g3, g4⟩ := hno
      rw [if_neg (not_le.mpr g1), if_neg (not_le.mpr g2), if_neg g3,
        if_neg (not_lt.mpr g4)] at hmsg
      obtain ⟨msg, hmsg⟩ := hmsg
      simp at hmsg
    · intro hdisj
      by_cases h1 : rps ≤ 0
      · rw [if_pos h1]; exact ⟨_, rfl⟩
      rw [if_neg h1]
      by_cases h2 : burst ≤ 0
      · rw [if_pos h2]; exact ⟨_, rfl⟩
      rw [if_neg h2]
      by_cases h3 : name = ""
      · rw [if_pos h3]; exact ⟨_, rfl⟩
      rw [if_neg h3]
      by_cases h4 : (burst : ℚ) < rps
      · rw [if_pos h4]; exact ⟨_, rfl⟩
      rcases hdisj with h | h | h | h
      · exact absurd h h1
      · exact absurd h h2
      · exact absurd h h3
      · exact absurd h h4
  · intro hno
    push_neg at hno
    obtain ⟨g1, g2, g3, g4⟩ := hno
    rw [if_neg (not_le.mpr g1), if_neg (not_le.mpr g2), if_neg g3,
      if_neg (not_lt.mpr g4)]

/-- Witness for C6: a valid configuration is constructed unchanged. -/
theorem rateLimitConfig_validation_witness :
    RateLimitConfig.init 2 5 "test" = .ok ⟨2, 5, "test"⟩ :=
  (rateLimitConfig_validation 2 5 "test").2 (by decide)

/-- C7: when `name` is already registered, `add_limiter` raises
`RateLimiterError` before touching the registry; the original bucket stays
registered under `name` with its state untouched. -/
theorem add_limiter_duplicate (r : RateLimiter) (name : String)
    (cfg : RateLimitConfig) (now : ℚ) (b : TokenBucket)
    (h : r.buckets.lookup name = some b) :
    r.add_limiter name cfg now =
      .error (.rateLimiterError
        ("Rate limiter " ++ name ++ " already exists")) ∧
      r.buckets.lookup name = some b := by
  refine ⟨?_, h⟩
  unfold RateLimiter.add_limiter
  rw [h]

/-- Witness for C7 at a one-entry registry. -/
theorem add_limiter_duplicate_witness :
    RateLimiter.add_limiter ⟨[("x", ⟨2, 5, 5, 0⟩)]⟩ "x" ⟨3, 7, "x"⟩ 1 =
      .error (.rateLimiterError ("Rate limiter " ++ "x" ++ " already exists")) ∧
      (RateLimiter.buckets ⟨[("x", ⟨2, 5, 5, 0⟩)]⟩).lookup "x" =
        some ⟨2, 5, 5, 0⟩ :=
  add_limiter_duplicate ⟨[("x", ⟨2, 5, 5, 0⟩)]⟩ "x" ⟨3, 7, "x"⟩ 1
    ⟨2, 5, 5, 0⟩ (by rfl)

/-- C8: every `consume` call with a positive token count sets `last_update`
to the call's wall-clock time, successful or not. -/
theorem consume_updates_last_update (b : TokenBucket) (n : ℤ) (t : ℚ)
    (res : Bool) (b1 : TokenBucket) (hn : 0 < n)
    (h : b.consume n t = .ok (res, b1)) :
    b1.last_update = t := by
  unfold TokenBucket.consume at h
  rw [if_neg (by omega : ¬ n ≤ 0)] at h
  simp only at h
  by_cases hgt : (n : ℚ) > (b.add_tokens t).tokens
  · rw [if_pos hgt] at h
    simp only [Except.ok.injEq, Prod.mk.injEq] at h
    obtain ⟨-, rfl⟩ := h
    rfl
  · rw [if_neg hgt] at h
    simp only [Except.ok.injEq, Prod.mk.injEq] at h
    obtain ⟨-, rfl⟩ := h
    rfl

unseal Rat.mul Rat.add Rat.sub Rat.inv in
/-- Witness for C8 at a failing call: an exhausted bucket denies a request
for 3 tokens at time 1 yet its `last_update` becomes 1. -/
theorem consume_updates_last_update_witness :
    TokenBucket.last_update ⟨2, 5, 2, 1⟩ = 1 :=
  consume_updates_last_update ⟨2, 5, 0, 0⟩ 3 1 false ⟨2, 5, 2, 1⟩
    (by decide) (by rfl)

/-- C9: `acquire` validates its token count before consulting the registry:
with any registry (the name need not be registered) and `tokens ≤ 0` it
raises the `ValueError`, not the unknown-limiter `RateLimiterError`, and no
bucket is touched. -/
theorem acquire_validates_tokens_first (r : RateLimiter) (name : String)
    (n : ℤ) (t : ℚ) (hn : n ≤ 0) :
    r.acquire name n t = .error (.valueError "Tokens must be positive") := by
  unfold RateLimiter.acquire
  rw [if_pos hn]

/-- Witness for C9 on the empty registry, where the name is unregistered:
the `ValueError` still wins. -/
theorem acquire_validates_tokens_first_witness :
    RateLimiter.acquire ⟨[]⟩ "nope" 0 5 =
      .error (.valueError "Tokens must be positive") :=
  acquire_validates_tokens_first ⟨[]⟩ "nope" 0 5 (by decide)

theorem consume_pos_eq (b : TokenBucket) (n : ℤ) (t : ℚ) (hn : 0 < n) :
    b.consume n t =
      if (n : ℚ) > (b.add_tokens t).tokens then .ok (false, b.add_tokens t)
      else .ok (true, { b.add_tokens t with
        tokens := quantize6 ((b.add_tokens t).tokens - (n : ℚ)) }) := by
  unfold TokenBucket.consume
  rw [if_neg (by omega : ¬ n ≤ 0)]

/-- C3: on an exhausted bucket (`tokens = 0`, capacity at least one token),
a `consume(1)` after `t ≥ 0` further seconds succeeds iff `t ≥ 1/rate`:
the quantized refill `quantize6 (t * rate)` reaches one whole token exactly
when `t * rate ≥ 1`. -/
theorem consume_refill_linearity (b : TokenBucket) (t : ℚ)
    (hrate : 0 < b.rate) (hcap : 1 ≤ b.capacity) (htok : b.tokens = 0)
    (ht : 0 ≤ t) :
    b.consumeResult 1 (b.last_update + t) = some true ↔ 1 / b.rate ≤ t := by
  have hq0 : 0 ≤ t * b.rate := mul_nonneg ht hrate.le
  have htk : (b.add_tokens (b.last_update + t)).tokens
      = min b.capacity (quantize6 (t * b.rate)) := by
    show min b.capacity
        (b.tokens + quantize6 ((b.last_update + t - b.last_update) * b.rate))
      = min b.capacity (quantize6 (t * b.rate))
    rw [htok, zero_add, add_sub_cancel_left]
  have hiff : 1 ≤ min b.capacity (quantize6 (t * b.rate)) ↔ 1 / b.rate ≤ t := by
    rw [le_min_iff]
    constructor
    · rintro ⟨-, h2⟩
      rw [div_le_iff₀ hrate]
      have h3 := (one_le_quantize6_iff hq0).mp h2
      linarith
    · intro h2
      rw [div_le_iff₀ hrate] at h2
      exact ⟨hcap, (one_le_quantize6_iff hq0).mpr (by linarith)⟩
  unfold TokenBucket.consumeResult
  rw [consume_pos_eq b 1 _ (by omega)]
  by_cases hgt : ((1 : ℤ) : ℚ) > (b.add_tokens (b.last_update + t)).tokens
  · rw [if_pos hgt]
    rw [htk] at hgt
    push_cast at hgt
    refine iff_of_false ?_ ?_
    · intro hc
      exact Bool.noConfusion (Option.some.inj hc)
    · intro hle
      have h2 := hiff.mpr hle
      linarith
  · rw [if_neg hgt]
    push_neg at hgt
    rw [htk] at hgt
    push_cast at hgt
    exact iff_of_true rfl (hiff.mp hgt)

/-- Witness for C3: with `rate = 10` per second and an exhausted bucket of
capacity 20, waiting `0.11 s` lets `consume(1)` succeed and waiting `0.05 s`
does not. -/
theorem consume_refill_linearity_witness :
    TokenBucket.consumeResult ⟨10, 20, 0, 0⟩ 1 (0 + 11 / 100) = some true ∧
      ¬ (TokenBucket.consumeResult ⟨10, 20, 0, 0⟩ 1 (0 + 5 / 100) =
        some true) :=
  ⟨(consume_refill_linearity ⟨10, 20, 0, 0⟩ (11 / 100) (by norm_num)
      (by norm_num) rfl (by norm_num)).mpr (by norm_num),
    fun hc => by
      have h2 := (consume_refill_linearity ⟨10, 20, 0, 0⟩ (5 / 100)
        (by norm_num) (by norm_num) rfl (by norm_num)).mp hc
      norm_num at h2⟩

/-- C10: a request for strictly more tokens than the capacity never raises
and never succeeds, whatever the elapsed time: the refilled balance is
capped at `capacity < n`, so `consume` returns `false`, and `acquire` on a
registered name returns the same `false`. -/
theorem consume_over_capacity (b : TokenBucket) (n : ℤ) (t : ℚ)
    (r : RateLimiter) (name : String)
    (hcap : 0 < b.capacity) (hn : b.capacity < (n : ℚ))
    (hlook : r.buckets.lookup name = some b) :
    b.consume n t = .ok (false, b.add_tokens t) ∧
      r.acquire name n t = .ok (false, r.setBucket name (b.add_tokens t)) := by
  have hn0 : 0 < n := by
    by_contra hle
    push_neg at hle
    have h1 : ((n : ℤ) : ℚ) ≤ 0 := by exact_mod_cast hle
    linarith
  have hgt : (n : ℚ) > (b.add_tokens t).tokens := by
    have h1 : (b.add_tokens t).tokens ≤ b.capacity := min_le_left _ _
    linarith
  have hcons : b.consume n t = .ok (false, b.add_tokens t) := by
    rw [consume_pos_eq b n t hn0, if_pos hgt]
  refine ⟨hcons, ?_⟩
  unfold RateLimiter.acquire
  rw [if_neg (by omega : ¬ n ≤ 0)]
  simp only [hlook, hcons]

/-- Witness for C10: a bucket of capacity 5 (full, and further refilled by
3 elapsed seconds) still denies a request for 6 tokens, directly and through
the registry. -/
theorem consume_over_capacity_witness :
    TokenBucket.consume ⟨2, 5, 5, 0⟩ 6 3 =
        .ok (false, TokenBucket.add_tokens ⟨2, 5, 5, 0⟩ 3) ∧
      RateLimiter.acquire ⟨[("x", ⟨2, 5, 5, 0⟩)]⟩ "x" 6 3 =
        .ok (false, RateLimiter.setBucket ⟨[("x", ⟨2, 5, 5, 0⟩)]⟩ "x"
          (TokenBucket.add_tokens ⟨2, 5, 5, 0⟩ 3)) :=
  consume_over_capacity ⟨2, 5, 5, 0⟩ 6 3 ⟨[("x", ⟨2, 5, 5, 0⟩)]⟩ "x"
    (by norm_num) (by norm_num) (by rfl)

theorem micro_natCast (k : ℕ) : Micro ((k : ℚ)) := by
  have h := micro_intCast (k : ℤ)
  rwa [Int.cast_natCast] at h

theorem consumeRun_succ (b : TokenBucket) (now : ℚ) (k : ℕ) :
    b.consumeRun now (k + 1) =
      match b.consume 1 now with
      | .ok (res, b1) => res :: b1.consumeRun now k
      | .error _ => [] := rfl

theorem consumeRun_succ_ok (b b1 : TokenBucket) (res : Bool) (now : ℚ) (k : ℕ)
    (h : b.consume 1 now = .ok (res, b1)) :
    b.consumeRun now (k + 1) = res :: b1.consumeRun now k := by
  rw [consumeRun_succ, h]

theorem consumeRun_spec : ∀ (n : ℕ) (b : TokenBucket) (m : ℕ) (now : ℚ),
    b.tokens = (m : ℚ) → (m : ℚ) ≤ b.capacity → 0 < b.capacity →
    b.last_update = now →
    b.consumeRun now n =
      List.replicate (min n m) true ++ List.replicate (n - m) false := by
  intro n
  induction n with
  | zero =>
    intro b m now _ _ _ _
    show ([] : List Bool) =
      List.replicate (min 0 m) true ++ List.replicate (0 - m) false
    simp
  | succ k ih =>
    intro b m now htok hcap hcpos hlu
    have hadd : (b.add_tokens now).tokens = (m : ℚ) := by
      show min b.capacity
          (b.tokens + quantize6 ((now - b.last_update) * b.rate)) = (m : ℚ)
      rw [hlu, sub_self, zero_mul, quantize6_zero, add_zero, htok,
        min_eq_right hcap]
    by_cases hm : m = 0
    · subst hm
      have hgt : ((1 : ℤ) : ℚ) > (b.add_tokens now).tokens := by
        rw [hadd]; push_cast; norm_num
      have hcons : b.consume 1 now = .ok (false, b.add_tokens now) := by
        rw [consume_pos_eq b 1 now (by omega), if_pos hgt]
      rw [consumeRun_succ_ok b (b.add_tokens now) false now k hcons,
        ih (b.add_tokens now) 0 now hadd
          (by show ((0 : ℕ) : ℚ) ≤ b.capacity; exact_mod_cast hcpos.le)
          hcpos rfl]
      simp [List.replicate_succ]
    · have hm1 : 1 ≤ m := Nat.one_le_iff_ne_zero.mpr hm
      have hle1 : ((1 : ℤ) : ℚ) ≤ (b.add_tokens now).tokens := by
        rw [hadd]; push_cast; exact_mod_cast hm1
      have hcons : b.consume 1 now = .ok (true, { b.add_tokens now with
          tokens := quantize6 ((b.add_tokens now).tokens - ((1 : ℤ) : ℚ)) }) := by
        rw [consume_pos_eq b 1 now (by omega), if_neg (not_lt.mpr hle1)]
      have he : (m : ℚ) - ((1 : ℤ) : ℚ) = ((m - 1 : ℕ) : ℚ) := by
        push_cast [Nat.cast_sub hm1]
        ring
      have hq : quantize6 ((b.add_tokens now).tokens - ((1 : ℤ) : ℚ))
          = ((m - 1 : ℕ) : ℚ) := by
        rw [hadd, he, quantize6_micro_eq (micro_natCast _)]
      have hm1q : ((m - 1 : ℕ) : ℚ) ≤ b.capacity := by
        have h2 : ((m - 1 : ℕ) : ℚ) ≤ (m : ℚ) := by
          exact_mod_cast Nat.sub_le m 1
        linarith
      rw [consumeRun_succ_ok b { b.add_tokens now with
          tokens := quantize6 ((b.add_tokens now).tokens - ((1 : ℤ) : ℚ)) }
          true now k hcons,
        ih { b.add_tokens now with
          tokens := quantize6 ((b.add_tokens now).tokens - ((1 : ℤ) : ℚ)) }
          (m - 1) now hq hm1q hcpos rfl]
      have e1 : min (k + 1) m = min k (m - 1) + 1 := by omega
      have e2 : k + 1 - m = k - (m - 1) := by omega
      rw [e1, e2, List.replicate_succ, List.cons_append]

/-- C4: a bucket constructed from a valid configuration starts full
(`tokens = capacity`), and a fresh bucket of capacity `C` admits exactly `C`
consecutive `consume(1)` calls with no delay — the first `C` return `true`
and the `(C+1)`-th returns `false`. -/
theorem burst_admission (rate : ℚ) (C : ℤ) (t0 : ℚ) (b : TokenBucket)
    (hmk : TokenBucket.init rate C t0 = .ok b) :
    b.tokens = b.capacity ∧
      b.consumeRun t0 (C.toNat + 1) =
        List.replicate C.toNat true ++ [false] := by
  obtain ⟨hr, hC, hrC, rfl⟩ := init_ok hmk
  refine ⟨rfl, ?_⟩
  have hCd : ((C.toNat : ℕ) : ℤ) = C := Int.toNat_of_nonneg hC.le
  have htokC : (C : ℚ) = ((C.toNat : ℕ) : ℚ) := by exact_mod_cast hCd.symm
  rw [consumeRun_spec (C.toNat + 1) _ C.toNat t0 htokC (le_of_eq htokC.symm)
    (by show (0 : ℚ) < (C : ℚ); exact_mod_cast hC) rfl]
  have e1 : min (C.toNat + 1) C.toNat = C.toNat := by omega
  have e2 : C.toNat + 1 - C.toNat = 1 := by omega
  rw [e1, e2]
  rfl

/-- Witness for C4: a fresh bucket with `rate = 2`, `capacity = 3` admits
exactly three `consume(1)` calls at construction time, then denies. -/
theorem burst_admission_witness :
    (⟨2, 3, 3, 0⟩ : TokenBucket).tokens =
        (⟨2, 3, 3, 0⟩ : TokenBucket).capacity ∧
      TokenBucket.consumeRun ⟨2, 3, 3, 0⟩ 0 ((3 : ℤ).toNat + 1) =
        List.replicate (3 : ℤ).toNat true ++ [false] :=
  burst_admission 2 3 0 ⟨2, 3, 3, 0⟩ (by rfl)

theorem inv_tokens_quantized {b : TokenBucket} (h : BucketInv b) :
    0 ≤ b.tokens ∧ quantize6 b.tokens = b.tokens :=
  ⟨h.2.2.2.1, quantize6_micro_eq h.2.2.2.2.2⟩

/-- C5: with `Decimal` modelled exactly as rational arithmetic, every
observable balance (after construction and after every call of a
time-monotone trace) is non-negative and is a fixed point of the
six-decimal-place round-down `quantize6` — an exact non-negative multiple of
`10 ^ (-6)`.  Moreover rounding is downward, never upward: a refill never
lifts the balance above the exact, unquantized
`min capacity (tokens + elapsed * rate)` that the exactly elapsed time
justifies, and a successful consumption never leaves more than the exact
difference between the refilled balance and the granted count. -/
theorem tokens_decimal_quantized (rate : ℚ) (cap : ℤ) (t0 : ℚ)
    (b : TokenBucket) (trace : List (ℤ × ℚ))
    (hmk : TokenBucket.init rate cap t0 = .ok b)
    (hmono : TimesMono t0 trace) :
    (∀ s ∈ b :: b.runTrace trace, 0 ≤ s.tokens ∧
      quantize6 s.tokens = s.tokens) ∧
    (∀ (s : TokenBucket) (t : ℚ), 0 ≤ s.rate → s.last_update ≤ t →
      (s.add_tokens t).tokens ≤
        min s.capacity (s.tokens + (t - s.last_update) * s.rate)) ∧
    (∀ (s b1 : TokenBucket) (n : ℤ) (t : ℚ),
      s.consume n t = .ok (true, b1) →
      b1.tokens ≤ (s.add_tokens t).tokens - (n : ℚ)) := by
  obtain ⟨hinv, hlu, -⟩ := init_inv hmk
  refine ⟨?_, ?_, ?_⟩
  · intro s hs
    rcases List.mem_cons.mp hs with rfl | hs1
    · exact inv_tokens_quantized hinv
    · exact inv_tokens_quantized
        (runTrace_inv trace b t0 hinv (le_of_eq hlu) hmono s hs1)
  · intro s t hr ht
    have hy : 0 ≤ (t - s.last_update) * s.rate :=
      mul_nonneg (by linarith) hr
    have h1 : (s.add_tokens t).tokens =
        min s.capacity
          (s.tokens + quantize6 ((t - s.last_update) * s.rate)) := rfl
    rw [h1]
    exact min_le_min (le_refl _) (by linarith [quantize6_le hy])
  · intro s b1 n t h
    unfold TokenBucket.consume at h
    by_cases hn : n ≤ 0
    · rw [if_pos hn] at h; simp at h
    rw [if_neg hn] at h
    simp only at h
    by_cases hgt : (n : ℚ) > (s.add_tokens t).tokens
    · rw [if_pos hgt] at h
      simp only [Except.ok.injEq, Prod.mk.injEq] at h
      exact absurd h.1 (by simp)
    · rw [if_neg hgt] at h
      simp only [Except.ok.injEq, Prod.mk.injEq] at h
      obtain ⟨-, rfl⟩ := h
      push_neg at hgt
      have hd0 : (0 : ℚ) ≤ (s.add_tokens t).tokens - (n : ℚ) := by linarith
      exact quantize6_le hd0

unseal Rat.mul Rat.add Rat.sub Rat.inv in
/-- Witness for C5: the balance `3` observed after a successful `consume(2)`
at time 1 on a fresh `rate = 2`, `capacity = 5` bucket is non-negative and
fixed by `quantize6`, and the quantized refill of an exhausted such bucket
between times 0 and 1 stays at or below the exact refill
`min 5 (0 + (1 - 0) * 2)`. -/
theorem tokens_decimal_quantized_witness :
    (0 ≤ (⟨2, 5, 3, 1⟩ : TokenBucket).tokens ∧
      quantize6 (⟨2, 5, 3, 1⟩ : TokenBucket).tokens =
        (⟨2, 5, 3, 1⟩ : TokenBucket).tokens) ∧
    (TokenBucket.add_tokens ⟨2, 5, 0, 0⟩ 1).tokens ≤
      min (5 : ℚ) (0 + (1 - 0) * 2) :=
  ⟨(tokens_decimal_quantized 2 5 0 ⟨2, 5, 5, 0⟩ [(2, 1)] (by rfl)
      (by norm_num [TimesMono])).1 ⟨2, 5, 3, 1⟩ (by decide),
    (tokens_decimal_quantized 2 5 0 ⟨2, 5, 5, 0⟩ [(2, 1)] (by rfl)
      (by norm_num [TimesMono])).2.1 ⟨2, 5, 0, 0⟩ 1 (by norm_num)
      (by norm_num)⟩
